import Mathlib

/-!
# SubzeroECS core — shallow embedding and verification

This file embeds the SubzeroECS core (sorted-array component storage,
entity identity, the 2-way and N-way iterator intersection algorithms and
the 32-slot free-index allocator) as executable Lean definitions, translated
directly from the C++ sources under `source/SubzeroECS/`, and proves or
refutes the specification claims about them.

Modelling conventions:
* `EntityId` values are `Nat` (the C++ `std::uint32_t` payload); where 32-bit
  wraparound or the `Invalid` sentinel matters we use the explicit constant
  `uint32Max = 2 ^ 32 - 1`.
* A `Collection<T>` is a pair of parallel lists `ids`/`components`
  (`std::vector<EntityId>` / `std::vector<Component>`).
* `std::lower_bound(first, last, v)` over a sorted range is modelled by its
  specified result: the first position whose element is not `< v`.
* C++ iterators over an id vector are modelled as list suffixes in the
  Intersection algorithms (`*it` = head, `++it` = tail, `it == end` = `[]`),
  and as indices where iterator distance is used (Collection).
* Throwing functions return `Except String`/`Option String`; the string
  records the C++ exception class and message.
-/

namespace SubzeroECS

/-- `EntityId::Invalid` — `std::numeric_limits<std::uint32_t>::max()`
(`EntityId.hpp` line 43). -/
def uint32Max : Nat := 2 ^ 32 - 1

/-- `isNull(EntityId)` (`EntityId.hpp` lines 48-49): tests the sentinel. -/
def isNull (entityId : Nat) : Bool := entityId = uint32Max

/-! ## Collection<T> (`Collection.hpp`)

`std::lower_bound(ids_.begin(), ids_.end(), x)` on the (always sorted) id
vector returns the first iterator whose element is not `< x`.  We model the
returned iterator by its distance from `begin()`. -/

/-- Index form of `std::lower_bound` over a sorted list: the index of the
first element that is not `< x`, or `l.length` when every element is. -/
def lowerBoundIdx (l : List Nat) (x : Nat) : Nat :=
  match l with
  | [] => 0
  | a :: as => if a < x then lowerBoundIdx as x + 1 else 0

/-- `Collection<TComponent>`: parallel vectors `ids_` and `components_`
(`Collection.hpp` lines 94-95). -/
structure Collection (α : Type) where
  ids : List Nat
  components : List α

/-- The freshly constructed collection: both vectors empty. -/
def Collection.empty {α : Type} : Collection α := ⟨[], []⟩

/-- `Collection::create(entityId, component)` (`Collection.hpp` lines 36-48):
binary-search for the insertion point; throw `std::invalid_argument` if the
id is already present (before any mutation); otherwise insert into both
parallel vectors at that index.  The result pairs the thrown message (if
any) with the resulting collection state, so that "no partial mutation" is
expressible. -/
def Collection.create {α : Type} (c : Collection α) (entityId : Nat) (v : α) :
    Option String × Collection α :=
  let i := lowerBoundIdx c.ids entityId
  if i < c.ids.length ∧ c.ids.getD i 0 = entityId then
    (some "invalid_argument: EntityId already has this component type for call to Collection::create()", c)
  else
    (none, ⟨c.ids.insertIdx i entityId, c.components.insertIdx i v⟩)

/-- `Collection::has(entityId)` (`Collection.hpp` lines 50-54). -/
def Collection.has {α : Type} (c : Collection α) (entityId : Nat) : Bool :=
  let i := lowerBoundIdx c.ids entityId
  decide (i < c.ids.length) && decide (c.ids.getD i 0 = entityId)

/-- `Collection::find(entityId)` (`Collection.hpp` lines 59-65): null when
the id is absent, otherwise the component at the iterator's offset. -/
def Collection.find {α : Type} (c : Collection α) (entityId : Nat) : Option α :=
  let i := lowerBoundIdx c.ids entityId
  if i < c.ids.length ∧ c.ids.getD i 0 = entityId then c.components.get? i else none

/-- `Collection::get(entityId)` (`Collection.hpp` lines 70-76).  Translated
exactly: the source only tests `iFind == ids_.end()` — it does NOT test
`*iFind == entityId` the way `has`/`find` do — and then returns
`at(iFind)`, i.e. the component at the iterator's offset.  (`out_of_range`
records `components_.at` throwing, unreachable while the parallel vectors
have equal length.) -/
def Collection.get {α : Type} (c : Collection α) (entityId : Nat) : Except String α :=
  let i := lowerBoundIdx c.ids entityId
  if i = c.ids.length then
    .error "invalid_argument: EntityId does not have this component type for call to Collection::get()"
  else
    match c.components.get? i with
    | some v => .ok v
    | none => .error "out_of_range"

/-- A sequence of `create` calls starting from a given collection; a failing
`create` throws and (as proved below) leaves the state unchanged, so the
fold keeps the returned state in either case. -/
def Collection.createSeq {α : Type} (c : Collection α) (ops : List (Nat × α)) :
    Collection α :=
  ops.foldl (fun acc op => (acc.create op.1 op.2).2) c

/-! ## FreeIndexList (`FreeIndexList.hpp`)

State: the value of the 32-bit `std::bitset<32> freeMask_` (0 = free,
1 = allocated), as a `Nat < 2 ^ 32`. -/

/-- Capacity of the allocator (`FreeIndexList.hpp` line 20). -/
def flCapacity : Nat := 32

/-- The mask with all 32 bits set (`freeMask_.all()`). -/
def flFullMask : Nat := 2 ^ 32 - 1

/-- `std::countr_one` restricted to 32-bit inputs: count of consecutive `1`
bits starting from the least significant bit.  The fuel argument (32) covers
every 32-bit value. -/
def countrOneAux : Nat → Nat → Nat
  | 0, _ => 0
  | fuel + 1, n => if n % 2 = 1 then countrOneAux fuel (n / 2) + 1 else 0

/-- `std::countr_one(bits)` for a 32-bit `bits`. -/
def countrOne (n : Nat) : Nat := countrOneAux 32 n

/-- `FreeIndexList::alloc()` (`FreeIndexList.hpp` lines 62-76): throw
`std::overflow_error` when every bit is set, otherwise return the index of
the first clear bit (`countr_one`) and set it. -/
def flAlloc (mask : Nat) : Except String (Nat × Nat) :=
  if mask = flFullMask then
    .error "overflow_error: Exceeds limit of UniqueIndex instances"
  else
    let index := countrOne mask
    .ok (index, mask ||| 2 ^ index)

/-- `FreeIndexList::free(index)` (`FreeIndexList.hpp` lines 78-82):
`freeMask_.reset(index)` — clear the bit. -/
def flFree (mask : Nat) (index : Nat) : Nat :=
  if mask.testBit index then mask - 2 ^ index else mask

/-- `FreeIndexList::count()` is `freeMask_.count()`; `isFull()` is
`freeMask_.all()`. -/
def flIsFull (mask : Nat) : Bool := mask = flFullMask

/-- Mask after `n` successive `alloc()` calls on a fresh `FreeIndexList`
(all bits clear), or the first thrown message. -/
def flAllocs : Nat → Except String Nat
  | 0 => .ok 0
  | n + 1 => (flAllocs n).bind fun m => (flAlloc m).map (·.2)

/-! ## EntityId::next and World (`EntityId.hpp`, `World.hpp`)

`World::newEntityId()` (`World.hpp` lines 64-65) calls `EntityId::next()`,
but no definition of `next()` exists anywhere under the sources — only this
call site.  It is therefore modelled from the spec. -/

/-- Modelled from the spec: `EntityId::next()` is absent from the sources
(declared nowhere; called at `World.hpp` line 65).  Spec §4.1: "`next()`
returning the successor id, failing with an overflow condition if the
counter is already at its maximum representable value". -/
def entityIdNext (id : Nat) : Except String Nat :=
  if id = uint32Max then .error "overflow_error: EntityId counter overflow"
  else .ok (id + 1)

/-- `World`'s entity-id state: `lastEntityId_` (`World.hpp` line 68). -/
structure WorldState where
  lastEntityId : Nat

/-- `World::World()` (`World.hpp` lines 14-16): `lastEntityId_` starts at
`EntityId::Invalid`. -/
def WorldState.init : WorldState := ⟨uint32Max⟩

/-- `World::newEntityId()` (`World.hpp` lines 64-65):
`lastEntityId_ = lastEntityId_.next()`, returning the new id. -/
def WorldState.newEntityId (w : WorldState) : Except String (Nat × WorldState) :=
  (entityIdNext w.lastEntityId).map fun id => (id, ⟨id⟩)

/-! ## Entity (`Entity.hpp`)

`Entity` is the value pair `(World*, EntityId)`; the null world pointer is
`Option`.  The world type is abstract here: `Entity`'s own code only ever
null-checks and forwards to it. -/

structure Entity (W : Type) where
  world? : Option W
  id : Nat

/-- `Entity::Entity()` (`Entity.hpp` lines 18-19, 79-80): `world_ = nullptr`,
`id_ = cInvalid_EntityId`. -/
def Entity.default (W : Type) : Entity W := ⟨none, uint32Max⟩

/-- `Entity::world()` (`Entity.hpp` lines 28-33): throws
`std::runtime_error` on a null world pointer. -/
def Entity.world {W : Type} (e : Entity W) : Except String W :=
  match e.world? with
  | none => .error "runtime_error: Entity::world_ == nullptr"
  | some w => .ok w

/-- `Entity::isNull()` (`Entity.hpp` lines 41-43). -/
def Entity.isNull {W : Type} (e : Entity W) : Bool := SubzeroECS.isNull e.id

/-- `Entity::has<T>()` (`Entity.hpp` lines 46-48): calls `world()` first and
then `World::has<T>(id())` on the result; `hasW` abstracts that world
method. -/
def Entity.hasC {W : Type} (e : Entity W) (hasW : W → Nat → Bool) :
    Except String Bool :=
  (e.world).map fun w => hasW w e.id

/-- `Entity::get<T>()` (`Entity.hpp` lines 51-53). -/
def Entity.getC {W α : Type} (e : Entity W) (getW : W → Nat → Except String α) :
    Except String α :=
  (e.world).bind fun w => getW w e.id

/-- `Entity::find<T>()` (`Entity.hpp` lines 56-58). -/
def Entity.findC {W α : Type} (e : Entity W) (findW : W → Nat → Option α) :
    Except String (Option α) :=
  (e.world).map fun w => findW w e.id

/-- `Entity::add<T>()` (`Entity.hpp` lines 61-63). -/
def Entity.addC {W : Type} (e : Entity W) (addW : W → Nat → Except String W) :
    Except String W :=
  (e.world).bind fun w => addW w e.id

/-! ## Intersection (`Intersection.hpp`)

Iterators over the id vectors are modelled as list suffixes: `*it` is the
head, `++it` is the tail, `it == end` is `[]`.  On success the algorithms
return the final suffixes (the cursors); on failure they return `none`
(the C++ returns `false` and the caller normalises the cursors to `end`). -/

/-- `Intersection::intersect2` (`Intersection.hpp` lines 34-59): classic
sorted-merge loop.  The source dereferences both iterators on entry (the
callers guarantee they are not at `end`); an empty suffix yields `none`,
matching the `return false` taken as soon as an increment reaches `end`. -/
def intersect2 : List Nat → List Nat → Option (List Nat × List Nat)
  | a :: as, b :: bs =>
    if a < b then
      match as with
      | [] => none
      | a' :: as' => intersect2 (a' :: as') (b :: bs)
    else if ¬ b < a then
      some (a :: as, b :: bs)
    else
      match bs with
      | [] => none
      | b' :: bs' => intersect2 (a :: as) (b' :: bs')
  | _, _ => none
termination_by xs ys => xs.length + ys.length

/-- `Intersection::begin2` (`Intersection.hpp` lines 73-87): fail if either
cursor is at `end`; succeed immediately if already at an intersection;
otherwise run `intersect2`. -/
def begin2 (xs ys : List Nat) : Option (List Nat × List Nat) :=
  match xs, ys with
  | a :: _, b :: _ => if b = a then some (xs, ys) else intersect2 xs ys
  | _, _ => none

/-- `Intersection::increment2` (`Intersection.hpp` lines 101-116): advance
both cursors one position (`++it1 == end1 || ++it2 == end2` —
short-circuit), then the same already-matching check, then `intersect2`. -/
def increment2 : List Nat → List Nat → Option (List Nat × List Nat)
  | _ :: as, _ :: bs =>
    match as, bs with
    | a :: _, b :: _ => if b = a then some (as, bs) else intersect2 as bs
    | _, _ => none
  | _, _ => none

/-- The linear-scan phase of the N-way advance (`Intersection.hpp` lines
167-174): `while (linearCount < GallopingThreshold && it != end && *it <
maxId) ++it;` with the remaining count as first argument. -/
def linearScan : Nat → List Nat → Nat → List Nat
  | 0, l, _ => l
  | _ + 1, [], _ => []
  | count + 1, a :: as, t => if a < t then linearScan count as t else a :: as

/-- `std::lower_bound(it, end, t)` over a sorted suffix: drop every leading
element `< t` (its specified result on a partitioned range). -/
def lowerBoundFrom : List Nat → Nat → List Nat
  | [], _ => []
  | a :: as, t => if a < t then lowerBoundFrom as t else a :: as

/-- One lagging cursor's advance in `intersectN` (`Intersection.hpp` lines
157-193, called only when `*it < maxId`): linear scan up to the galloping
threshold (32), then — if still short of `maxId` and not at `end` —
`std::lower_bound` from the current position. -/
def advanceIt (l : List Nat) (t : Nat) : List Nat :=
  match linearScan 32 l t with
  | [] => []
  | a :: as => if a < t then lowerBoundFrom (a :: as) t else a :: as

theorem linearScan_suffix : ∀ (c : Nat) (l : List Nat) (t : Nat), linearScan c l t <:+ l
  | 0, l, _ => List.suffix_refl l
  | _ + 1, [], _ => List.suffix_refl []
  | c + 1, a :: as, t => by
    simp only [linearScan]
    by_cases h : a < t
    · simp only [h, if_true]
      exact (linearScan_suffix c as t).trans (List.suffix_cons a as)
    · simp only [h, if_false]
      exact List.suffix_refl _

theorem lowerBoundFrom_suffix : ∀ (l : List Nat) (t : Nat), lowerBoundFrom l t <:+ l
  | [], _ => List.suffix_refl []
  | a :: as, t => by
    simp only [lowerBoundFrom]
    by_cases h : a < t
    · simp only [h, if_true]
      exact (lowerBoundFrom_suffix as t).trans (List.suffix_cons a as)
    · simp only [h, if_false]
      exact List.suffix_refl _

theorem advanceIt_suffix (l : List Nat) (t : Nat) : advanceIt l t <:+ l := by
  unfold advanceIt
  have hscan := linearScan_suffix 32 l t
  cases hls : linearScan 32 l t with
  | nil => exact List.nil_suffix
  | cons a as =>
    rw [hls] at hscan
    by_cases h : a < t
    · simp only [h, if_true]
      exact (lowerBoundFrom_suffix (a :: as) t).trans hscan
    · simp only [h, if_false]
      exact hscan

theorem advanceIt_length_lt {a t : Nat} (as : List Nat) (h : a < t) :
    (advanceIt (a :: as) t).length < (a :: as).length := by
  have h1 : advanceIt (a :: as) t <:+ as := by
    unfold advanceIt
    have hls : linearScan 32 (a :: as) t = linearScan 31 as t := by
      simp [linearScan, h]
    rw [hls]
    have hscan := linearScan_suffix 31 as t
    cases hcase : linearScan 31 as t with
    | nil => exact List.nil_suffix
    | cons b bs =>
      rw [hcase] at hscan
      by_cases hb : b < t
      · simp only [hb, if_true]
        exact (lowerBoundFrom_suffix (b :: bs) t).trans hscan
      · simp only [hb, if_false]
        exact hscan
  calc (advanceIt (a :: as) t).length ≤ as.length := h1.length_le
    _ < (a :: as).length := by simp

/-- `Intersection::intersectN` (`Intersection.hpp` lines 137-210)
instantiated at three cursors (the N = 3 shape exercised by the spec's
scenarios).  Each round: `maxId` is the maximum of the three current ids;
every cursor strictly behind it is advanced (linear scan then galloping);
if any advanced cursor exhausted its sequence the round reports failure
(`anyAtEnd`); if no cursor was behind (`allAtMax`) the intersection is
found; otherwise the loop repeats. -/
def intersect3 : List Nat → List Nat → List Nat → Option (List Nat × List Nat × List Nat)
  | a :: as, b :: bs, c :: cs =>
    if (if a < max a (max b c) then advanceIt (a :: as) (max a (max b c)) else a :: as) = [] ∨
       (if b < max a (max b c) then advanceIt (b :: bs) (max a (max b c)) else b :: bs) = [] ∨
       (if c < max a (max b c) then advanceIt (c :: cs) (max a (max b c)) else c :: cs) = [] then
      none
    else if h2 : a = max a (max b c) ∧ b = max a (max b c) ∧ c = max a (max b c) then
      some (a :: as, b :: bs, c :: cs)
    else
      intersect3
        (if a < max a (max b c) then advanceIt (a :: as) (max a (max b c)) else a :: as)
        (if b < max a (max b c) then advanceIt (b :: bs) (max a (max b c)) else b :: bs)
        (if c < max a (max b c) then advanceIt (c :: cs) (max a (max b c)) else c :: cs)
  | _, _, _ => none
termination_by xs ys zs => xs.length + ys.length + zs.length
decreasing_by
  simp only [dite_eq_ite]
  have hGle : ∀ (x : Nat) (l : List Nat) (m : Nat),
      (if x < m then advanceIt (x :: l) m else x :: l).length ≤ (x :: l).length := by
    intro x l m
    by_cases hx : x < m
    · simp only [hx, if_true]
      exact (advanceIt_suffix (x :: l) m).length_le
    · simp only [hx, if_false]
      exact Nat.le_refl _
  have hGlt : ∀ (x : Nat) (l : List Nat) (m : Nat), x < m →
      (if x < m then advanceIt (x :: l) m else x :: l).length < (x :: l).length := by
    intro x l m hx
    simp only [hx, if_true]
    exact advanceIt_length_lt l hx
  have ha : a ≤ max a (max b c) := Nat.le_max_left _ _
  have hb : b ≤ max a (max b c) := Nat.le_trans (Nat.le_max_left _ _) (Nat.le_max_right _ _)
  have hc : c ≤ max a (max b c) := Nat.le_trans (Nat.le_max_right _ _) (Nat.le_max_right _ _)
  have hone : a < max a (max b c) ∨ b < max a (max b c) ∨ c < max a (max b c) := by
    by_contra hno
    push_neg at hno
    exact h2 ⟨Nat.le_antisymm ha hno.1, Nat.le_antisymm hb hno.2.1, Nat.le_antisymm hc hno.2.2⟩
  rcases hone with h | h | h
  · have := hGlt a as (max a (max b c)) h
    have := hGle b bs (max a (max b c))
    have := hGle c cs (max a (max b c))
    omega
  · have := hGle a as (max a (max b c))
    have := hGlt b bs (max a (max b c)) h
    have := hGle c cs (max a (max b c))
    omega
  · have := hGle a as (max a (max b c))
    have := hGle b bs (max a (max b c))
    have := hGlt c cs (max a (max b c)) h
    omega

/-- `Intersection::beginN` (`Intersection.hpp` lines 224-244) at three
cursors: fail if any cursor is at `end`; succeed if all already agree with
the first cursor's id; otherwise `intersectN`. -/
def begin3 (xs ys zs : List Nat) : Option (List Nat × List Nat × List Nat) :=
  match xs, ys, zs with
  | a :: _, b :: _, c :: _ =>
    if b = a ∧ c = a then some (xs, ys, zs) else intersect3 xs ys zs
  | _, _, _ => none

/-- `Intersection::incrementN` (`Intersection.hpp` lines 258-279) at three
cursors: advance every cursor one position (a short-circuiting fold — the
increments stop at the first cursor that reaches `end`), then the same
already-matching check, then `intersectN`. -/
def increment3 : List Nat → List Nat → List Nat → Option (List Nat × List Nat × List Nat)
  | _ :: as, _ :: bs, _ :: cs =>
    match as, bs, cs with
    | a :: _, b :: _, c :: _ =>
      if b = a ∧ c = a then some (as, bs, cs) else intersect3 as bs cs
    | _, _, _ => none
  | _, _, _ => none

/-! ## Lemmas: binary search and Collection -/

theorem lowerBoundIdx_le_length (l : List Nat) (x : Nat) : lowerBoundIdx l x ≤ l.length := by
  induction l with
  | nil => simp [lowerBoundIdx]
  | cons a as ih =>
    simp only [lowerBoundIdx]
    by_cases h : a < x
    · simpa [h] using Nat.succ_le_succ ih
    · simp [h]

/-- On a strictly sorted list, `lower_bound` of a member lands exactly on it. -/
theorem lowerBoundIdx_mem {l : List Nat} {x : Nat} (hs : List.Sorted (· < ·) l)
    (hm : x ∈ l) : lowerBoundIdx l x < l.length ∧ l.getD (lowerBoundIdx l x) 0 = x := by
  induction l with
  | nil => cases hm
  | cons a as ih =>
    rw [List.sorted_cons] at hs
    by_cases h : a < x
    · have hxa : x ≠ a := by omega
      have hm' : x ∈ as := by
        cases List.mem_cons.mp hm with
        | inl h0 => exact absurd h0 hxa
        | inr h0 => exact h0
      have := ih hs.2 hm'
      simp only [lowerBoundIdx, h, if_true, List.length_cons, List.getD_cons_succ]
      exact ⟨Nat.succ_lt_succ this.1, this.2⟩
    · have hax : x = a := by
        cases List.mem_cons.mp hm with
        | inl h0 => exact h0
        | inr h0 => exact absurd (hs.1 x h0) (by omega)
      simp [lowerBoundIdx, h, hax]

/-- Converse: if the `lower_bound` probe fails the equality test, the key is
absent. -/
theorem not_mem_of_probe_fail {l : List Nat} {x : Nat} (hs : List.Sorted (· < ·) l)
    (h : ¬(lowerBoundIdx l x < l.length ∧ l.getD (lowerBoundIdx l x) 0 = x)) : x ∉ l :=
  fun hm => h (lowerBoundIdx_mem hs hm)

/-- Ordered insertion at the `lower_bound` index keeps a strictly sorted id
vector strictly sorted. -/
theorem sorted_insertIdx_lowerBound {l : List Nat} {x : Nat}
    (hs : List.Sorted (· < ·) l) (hx : x ∉ l) :
    List.Sorted (· < ·) (l.insertIdx (lowerBoundIdx l x) x) := by
  induction l with
  | nil => simp [lowerBoundIdx]
  | cons a as ih =>
    rw [List.sorted_cons] at hs
    by_cases h : a < x
    · have hx' : x ∉ as := fun hmem => hx (List.mem_cons_of_mem a hmem)
      simp only [lowerBoundIdx, h, if_true, List.insertIdx_succ_cons]
      rw [List.sorted_cons]
      refine ⟨?_, ih hs.2 hx'⟩
      intro b hb
      rcases (List.mem_insertIdx (lowerBoundIdx_le_length as x)).mp hb with hb | hb
      · omega
      · exact hs.1 b hb
    · have hxa : x < a := by
        have : x ≠ a := fun he => hx (by simp [he])
        omega
      simp only [lowerBoundIdx, h, if_false, List.insertIdx_zero]
      rw [List.sorted_cons]
      refine ⟨?_, List.sorted_cons.mpr hs⟩
      intro b hb
      rcases List.mem_cons.mp hb with hb | hb
      · omega
      · exact Nat.lt_trans hxa (hs.1 b hb)

/-- After inserting `x` at its `lower_bound` index, `lower_bound` finds it
at that same index. -/
theorem lowerBoundIdx_insertIdx {l : List Nat} {x : Nat}
    (hs : List.Sorted (· < ·) l) :
    lowerBoundIdx (l.insertIdx (lowerBoundIdx l x) x) x = lowerBoundIdx l x := by
  induction l with
  | nil => simp [lowerBoundIdx]
  | cons a as ih =>
    rw [List.sorted_cons] at hs
    by_cases h : a < x
    · simp only [lowerBoundIdx, h, if_true, List.insertIdx_succ_cons]
      rw [ih hs.2]
    · simp [lowerBoundIdx, h]

/-- `Collection::create` preserves the strict ordering of `ids_` — in the
throwing branch the state is untouched, in the inserting branch the ordered
insert keeps it sorted. -/
theorem create_sorted {α : Type} {c : Collection α} (entityId : Nat) (v : α)
    (hs : List.Sorted (· < ·) c.ids) :
    List.Sorted (· < ·) ((c.create entityId v).2.ids) := by
  unfold Collection.create
  by_cases h : lowerBoundIdx c.ids entityId < c.ids.length ∧
      c.ids.getD (lowerBoundIdx c.ids entityId) 0 = entityId
  · rw [if_pos h]
    exact hs
  · have hx : entityId ∉ c.ids := not_mem_of_probe_fail hs h
    rw [if_neg h]
    exact sorted_insertIdx_lowerBound hs hx

/-- `create` keeps the two parallel vectors the same length. -/
theorem create_length {α : Type} {c : Collection α} (entityId : Nat) (v : α)
    (hlen : c.components.length = c.ids.length) :
    ((c.create entityId v).2.components.length = (c.create entityId v).2.ids.length) := by
  unfold Collection.create
  by_cases h : lowerBoundIdx c.ids entityId < c.ids.length ∧
      c.ids.getD (lowerBoundIdx c.ids entityId) 0 = entityId
  · rw [if_pos h]
    exact hlen
  · have hle := lowerBoundIdx_le_length c.ids entityId
    rw [if_neg h]
    show (c.components.insertIdx _ v).length = (c.ids.insertIdx _ entityId).length
    rw [List.length_insertIdx _ _ (hlen ▸ hle), List.length_insertIdx _ _ hle, hlen]

theorem get?_insertIdx_self {α : Type} (l : List α) (x : α) (n : Nat)
    (hn : n ≤ l.length) : (l.insertIdx n x).get? n = some x := by
  have hlen : (l.insertIdx n x).length = l.length + 1 := List.length_insertIdx _ _ hn
  have hn' : n < (l.insertIdx n x).length := by omega
  rw [List.get?_eq_getElem?, List.getElem?_eq_getElem hn',
    List.getElem_insertIdx_self l x n hn]

theorem getD_insertIdx_self {α : Type} (l : List α) (x d : α) (n : Nat)
    (hn : n ≤ l.length) : (l.insertIdx n x).getD n d = x := by
  have hlen : (l.insertIdx n x).length = l.length + 1 := List.length_insertIdx _ _ hn
  have hn' : n < (l.insertIdx n x).length := by omega
  rw [List.getD_eq_getElem _ _ hn', List.getElem_insertIdx_self l x n hn]

/-- A successful probe means the key is a member. -/
theorem mem_of_probe {l : List Nat} {x : Nat}
    (h : lowerBoundIdx l x < l.length ∧ l.getD (lowerBoundIdx l x) 0 = x) : x ∈ l := by
  rw [← h.2, List.getD_eq_getElem _ _ h.1]
  exact List.getElem_mem h.1

/-- Duplicate insert: when the id is already stored, `create` throws
`std::invalid_argument` and the collection (both vectors) is exactly the
one before the call. -/
theorem create_dup {α : Type} {c : Collection α} {entityId : Nat} (v : α)
    (hs : List.Sorted (· < ·) c.ids) (hm : entityId ∈ c.ids) :
    (c.create entityId v).1 =
      some "invalid_argument: EntityId already has this component type for call to Collection::create()" ∧
    (c.create entityId v).2 = c := by
  have h := lowerBoundIdx_mem hs hm
  unfold Collection.create
  rw [if_pos h]
  exact ⟨rfl, rfl⟩

/-- Round-trip: inserting a fresh id succeeds, and both `get` and `find`
then return the stored value. -/
theorem create_roundtrip {α : Type} {c : Collection α} {entityId : Nat} (v : α)
    (hs : List.Sorted (· < ·) c.ids) (hx : entityId ∉ c.ids)
    (hlen : c.components.length = c.ids.length) :
    (c.create entityId v).1 = none ∧
    (c.create entityId v).2.get entityId = Except.ok v ∧
    (c.create entityId v).2.find entityId = some v := by
  have hle := lowerBoundIdx_le_length c.ids entityId
  have hcond : ¬(lowerBoundIdx c.ids entityId < c.ids.length ∧
      c.ids.getD (lowerBoundIdx c.ids entityId) 0 = entityId) :=
    fun h => hx (mem_of_probe h)
  unfold Collection.create
  rw [if_neg hcond]
  refine ⟨rfl, ?_, ?_⟩
  · show Collection.get ⟨_, _⟩ entityId = Except.ok v
    unfold Collection.get
    have hidx : lowerBoundIdx (c.ids.insertIdx (lowerBoundIdx c.ids entityId) entityId)
        entityId = lowerBoundIdx c.ids entityId := lowerBoundIdx_insertIdx hs
    have hlen' : (c.ids.insertIdx (lowerBoundIdx c.ids entityId) entityId).length =
        c.ids.length + 1 := List.length_insertIdx _ _ hle
    simp only [hidx]
    rw [if_neg (by omega)]
    rw [get?_insertIdx_self _ _ _ (by omega)]
  · show Collection.find ⟨_, _⟩ entityId = some v
    unfold Collection.find
    have hidx : lowerBoundIdx (c.ids.insertIdx (lowerBoundIdx c.ids entityId) entityId)
        entityId = lowerBoundIdx c.ids entityId := lowerBoundIdx_insertIdx hs
    have hlen' : (c.ids.insertIdx (lowerBoundIdx c.ids entityId) entityId).length =
        c.ids.length + 1 := List.length_insertIdx _ _ hle
    simp only [hidx]
    rw [if_pos ⟨by omega, getD_insertIdx_self _ _ _ _ hle⟩]
    rw [get?_insertIdx_self _ _ _ (by omega)]

/-- Any fold of `create` calls keeps `ids_` strictly sorted. -/
theorem createSeq_sorted {α : Type} : ∀ (ops : List (Nat × α)) (c : Collection α),
    List.Sorted (· < ·) c.ids → List.Sorted (· < ·) (c.createSeq ops).ids
  | [], _, hs => hs
  | op :: ops, c, hs =>
    createSeq_sorted ops (c.create op.1 op.2).2 (create_sorted op.1 op.2 hs)

/-! ## Lemmas: FreeIndexList bit mask -/

/-- Setting a clear bit is addition of that power of two. -/
theorem lor_two_pow_eq_add : ∀ (k m : Nat), m.testBit k = false → m ||| 2 ^ k = m + 2 ^ k
  | 0, m, h => by
    have hne : ¬ (m % 2 = 1) := by simpa [Nat.testBit_zero] using h
    have hdiv : (m ||| 2 ^ 0) / 2 = m / 2 := by
      rw [Nat.or_div_two]
      simp
    have hmod : (m ||| 2 ^ 0) % 2 = 1 :=
      Nat.or_mod_two_eq_one.mpr (Or.inr (by norm_num))
    have e1 := Nat.div_add_mod (m ||| 2 ^ 0) 2
    have e2 := Nat.div_add_mod m 2
    have hC : (2 : Nat) ^ 0 = 1 := pow_zero 2
    omega
  | k + 1, m, h => by
    have h2 : (m / 2).testBit k = false := by rw [Nat.testBit_div_two]; exact h
    have ih := lor_two_pow_eq_add k (m / 2) h2
    have hpow : (2 : Nat) ^ (k + 1) = 2 ^ k * 2 := pow_succ 2 k
    have hdiv : (m ||| 2 ^ (k + 1)) / 2 = m / 2 + 2 ^ k := by
      rw [Nat.or_div_two]
      have hp2 : (2 : Nat) ^ (k + 1) / 2 = 2 ^ k := by
        rw [hpow]
        exact Nat.mul_div_cancel _ (by norm_num)
      rw [hp2, ih]
    have hmodp : (2 : Nat) ^ (k + 1) % 2 = 0 := by
      rw [hpow]
      exact Nat.mul_mod_left _ _
    have hmod : (m ||| 2 ^ (k + 1)) % 2 = m % 2 := by
      rcases Nat.mod_two_eq_zero_or_one m with hm | hm
      · have hone : ¬ ((m ||| 2 ^ (k + 1)) % 2 = 1) := by
          rw [Nat.or_mod_two_eq_one]
          omega
        have := Nat.mod_two_eq_zero_or_one (m ||| 2 ^ (k + 1))
        omega
      · have : (m ||| 2 ^ (k + 1)) % 2 = 1 := Nat.or_mod_two_eq_one.mpr (Or.inl hm)
        omega
    have e1 := Nat.div_add_mod (m ||| 2 ^ (k + 1)) 2
    have e2 := Nat.div_add_mod m 2
    omega

/-- `reset` undoes `set` of a previously clear bit: allocate then free
returns to the original mask. -/
theorem flFree_set_clear {m k : Nat} (h : m.testBit k = false) :
    flFree (m ||| 2 ^ k) k = m := by
  have ht : (m ||| 2 ^ k).testBit k = true := by
    rw [Nat.testBit_or, Nat.testBit_two_pow_self]
    simp
  unfold flFree
  rw [if_pos (by simpa using ht), lor_two_pow_eq_add k m h]
  omega

/-- `countr_one` finds the first clear bit: that bit is clear and every bit
below it is set. -/
theorem countrOneAux_spec : ∀ (fuel n : Nat), n < 2 ^ fuel → n ≠ 2 ^ fuel - 1 →
    n.testBit (countrOneAux fuel n) = false ∧
      ∀ j, j < countrOneAux fuel n → n.testBit j = true
  | 0, n, hlt, hne => by
    simp only [pow_zero] at hlt hne
    exact absurd (by omega) hne
  | fuel + 1, n, hlt, hne => by
    rw [pow_succ] at hlt hne
    by_cases hpar : n % 2 = 1
    · have hlt2 : n / 2 < 2 ^ fuel := by omega
      have hne2 : n / 2 ≠ 2 ^ fuel - 1 := by
        intro he
        apply hne
        have h2 : 0 < 2 ^ fuel := Nat.pos_pow_of_pos fuel (by norm_num)
        omega
      obtain ⟨ih1, ih2⟩ := countrOneAux_spec fuel (n / 2) hlt2 hne2
      constructor
      · simp only [countrOneAux, hpar, if_true]
        rw [Nat.testBit_add_one]
        exact ih1
      · intro j hj
        simp only [countrOneAux, hpar, if_true] at hj
        match j with
        | 0 => simpa [Nat.testBit_zero] using hpar
        | j + 1 =>
          rw [Nat.testBit_add_one]
          exact ih2 j (by omega)
    · constructor
      · simp only [countrOneAux, hpar, if_false]
        simp [Nat.testBit_zero, hpar]
      · intro j hj
        simp only [countrOneAux, hpar, if_false] at hj
        omega

/-- A 32-bit mask equals the all-ones mask exactly when all 32 bits are set
(the `freeMask_.all()` test). -/
theorem eq_fullMask_iff {m : Nat} (hm : m < 2 ^ 32) :
    m = flFullMask ↔ ∀ i, i < 32 → m.testBit i = true := by
  have hfull : flFullMask = 2 ^ 32 - 1 := rfl
  constructor
  · intro h i hi
    rw [h, hfull, Nat.testBit_two_pow_sub_one]
    simpa using hi
  · intro h
    rw [hfull]
    apply Nat.eq_of_testBit_eq
    intro i
    rw [Nat.testBit_two_pow_sub_one]
    by_cases hi : i < 32
    · rw [h i hi]
      simp [hi]
    · have h32 : (2 : Nat) ^ 32 ≤ 2 ^ i := Nat.pow_le_pow_right (by norm_num) (by omega)
      rw [Nat.testBit_lt_two_pow (by omega)]
      simp [hi]

/-- The first clear bit of a non-full 32-bit mask is a valid slot. -/
theorem countrOne_lt_32 {m : Nat} (hm : m < 2 ^ 32) (hne : m ≠ flFullMask) :
    countrOne m < 32 := by
  by_contra hge
  push_neg at hge
  unfold countrOne at hge
  apply hne
  rw [eq_fullMask_iff hm]
  intro i hi
  exact (countrOneAux_spec 32 m hm hne).2 i (by omega)

/-- Bundled behaviour of `alloc()` on a non-full mask: it returns the
lowest-numbered free slot, marks it allocated, and `free` of that slot
restores the previous mask. -/
theorem flAlloc_lowest {m : Nat} (hm : m < 2 ^ 32) (hne : m ≠ flFullMask) :
    flAlloc m = .ok (countrOne m, m ||| 2 ^ countrOne m) ∧
    m.testBit (countrOne m) = false ∧
    (∀ j, j < countrOne m → m.testBit j = true) ∧
    countrOne m < 32 ∧
    flFree (m ||| 2 ^ countrOne m) (countrOne m) = m := by
  obtain ⟨h1, h2⟩ := countrOneAux_spec 32 m hm hne
  refine ⟨?_, h1, h2, countrOne_lt_32 hm hne, flFree_set_clear h1⟩
  unfold flAlloc
  rw [if_neg hne]

/-! ## Lemmas: sorted lists, suffixes and filters -/

theorem sorted_of_suffix {l l' : List Nat} (h : l' <:+ l)
    (hs : List.Sorted (· < ·) l) : List.Sorted (· < ·) l' :=
  hs.sublist h.sublist

theorem head_le_of_sorted_mem {a w : Nat} {l : List Nat}
    (hs : List.Sorted (· < ·) (a :: l)) (hw : w ∈ a :: l) : a ≤ w := by
  rcases List.mem_cons.mp hw with rfl | hw
  · exact Nat.le_refl w
  · exact Nat.le_of_lt ((List.sorted_cons.mp hs).1 w hw)

/-- Keys that survive a predicate and live in a suffix let the filter start
at the suffix: the skipped prefix contributes nothing (by sortedness it is
disjoint from the suffix). -/
theorem filter_eq_of_suffix {xs xs' : List Nat} {p : Nat → Bool}
    (hs : List.Sorted (· < ·) xs) (hsuf : xs' <:+ xs)
    (hp : ∀ w, w ∈ xs → p w = true → w ∈ xs') : xs.filter p = xs'.filter p := by
  obtain ⟨pre, rfl⟩ := hsuf
  rw [List.filter_append]
  have hnil : pre.filter p = [] := by
    rw [List.filter_eq_nil_iff]
    intro w hw hpw
    have hmem : w ∈ xs' := hp w (List.mem_append_left _ hw) hpw
    have hlt : w < w := (List.pairwise_append.mp hs).2.2 w hw w hmem
    omega
  rw [hnil, List.nil_append]

/-- Past a suffix head `v`, membership in the whole sorted list and in the
suffix tail agree for keys above `v`. -/
theorem mem_iff_mem_suffix {ys bs' : List Nat} {v w : Nat}
    (hs : List.Sorted (· < ·) ys) (hsuf : (v :: bs') <:+ ys) (hw : v < w) :
    w ∈ ys ↔ w ∈ bs' := by
  obtain ⟨pre, rfl⟩ := hsuf
  constructor
  · intro hmem
    rcases List.mem_append.mp hmem with h | h
    · have := (List.pairwise_append.mp hs).2.2 w h v (List.mem_cons_self _ _)
      omega
    · rcases List.mem_cons.mp h with rfl | h
      · omega
      · exact h
  · intro hmem
    exact List.mem_append_right _ (List.mem_cons_of_mem _ hmem)

/-! ## Lemmas: 2-way intersection -/

theorem intersect2_nil_left (ys : List Nat) : intersect2 [] ys = none := by
  unfold intersect2
  rfl

theorem intersect2_nil_right (xs : List Nat) : intersect2 xs [] = none := by
  unfold intersect2
  cases xs <;> rfl

/-- Clean one-step equation for `intersect2` (the inner `as = []` /
`bs = []` end tests coincide with `intersect2` returning `none` on an empty
cursor). -/
theorem intersect2_cons (a b : Nat) (as bs : List Nat) :
    intersect2 (a :: as) (b :: bs) =
      if a < b then intersect2 as (b :: bs)
      else if ¬ b < a then some (a :: as, b :: bs)
      else intersect2 (a :: as) bs := by
  conv_lhs => unfold intersect2
  by_cases hab : a < b
  · rw [if_pos hab, if_pos hab]
    cases as with
    | nil => rw [intersect2_nil_left]
    | cons a' as' => rfl
  · by_cases hba : b < a
    · rw [if_neg hab, if_neg hab, if_neg (by omega : ¬ ¬ b < a), if_neg (by omega : ¬ ¬ b < a)]
      cases bs with
      | nil => rw [intersect2_nil_right]
      | cons b' bs' => rfl
    · rw [if_neg hab, if_neg hab, if_pos (by omega : ¬ b < a), if_pos (by omega : ¬ b < a)]

theorem intersect2_some_shape : ∀ (n : Nat) (xs ys xs' ys' : List Nat),
    xs.length + ys.length ≤ n → intersect2 xs ys = some (xs', ys') →
    (∃ v as bs, xs' = v :: as ∧ ys' = v :: bs) ∧ xs' <:+ xs ∧ ys' <:+ ys := by
  intro n
  induction n with
  | zero =>
    intro xs ys xs' ys' hlen h
    have hxnil : xs = [] := List.length_eq_zero.mp (by omega)
    rw [hxnil, intersect2_nil_left] at h
    cases h
  | succ n ih =>
    intro xs ys xs' ys' hlen h
    match xs, ys with
    | [], ys => rw [intersect2_nil_left] at h; cases h
    | a :: as, [] => rw [intersect2_nil_right] at h; cases h
    | a :: as, b :: bs =>
      rw [intersect2_cons] at h
      by_cases hab : a < b
      · rw [if_pos hab] at h
        have hlen' : as.length + (b :: bs).length ≤ n := by
          simp only [List.length_cons] at hlen ⊢
          omega
        obtain ⟨hv, hsx, hsy⟩ := ih as (b :: bs) xs' ys' hlen' h
        exact ⟨hv, hsx.trans (List.suffix_cons a as), hsy⟩
      · by_cases hba : b < a
        · rw [if_neg hab, if_neg (by omega : ¬ ¬ b < a)] at h
          have hlen' : (a :: as).length + bs.length ≤ n := by
            simp only [List.length_cons] at hlen ⊢
            omega
          obtain ⟨hv, hsx, hsy⟩ := ih (a :: as) bs xs' ys' hlen' h
          exact ⟨hv, hsx, hsy.trans (List.suffix_cons b bs)⟩
        · rw [if_neg hab, if_pos (by omega : ¬ b < a)] at h
          injection h with h
          injection h with h1 h2
          have hba2 : b = a := by omega
          subst h1; subst h2
          exact ⟨⟨a, as, bs, rfl, by rw [hba2]⟩, List.suffix_refl _, List.suffix_refl _⟩

theorem intersect2_none_mem : ∀ (n : Nat) (xs ys : List Nat),
    xs.length + ys.length ≤ n →
    List.Sorted (· < ·) xs → List.Sorted (· < ·) ys →
    intersect2 xs ys = none → ∀ w, w ∈ xs → w ∈ ys → False := by
  intro n
  induction n with
  | zero =>
    intro xs ys hlen _ _ _ w hwx _
    have : xs = [] := List.length_eq_zero.mp (by omega)
    rw [this] at hwx
    cases hwx
  | succ n ih =>
    intro xs ys hlen hx hy h w hwx hwy
    match xs, ys with
    | [], ys => cases hwx
    | a :: as, [] => cases hwy
    | a :: as, b :: bs =>
      rw [intersect2_cons] at h
      by_cases hab : a < b
      · rw [if_pos hab] at h
        have hwas : w ∈ as := by
          rcases List.mem_cons.mp hwx with rfl | h0
          · have hble : b ≤ w := head_le_of_sorted_mem hy hwy
            omega
          · exact h0
        exact ih as (b :: bs) (by simp only [List.length_cons] at hlen ⊢; omega)
          ((List.sorted_cons.mp hx).2) hy h w hwas hwy
      · by_cases hba : b < a
        · rw [if_neg hab, if_neg (by omega : ¬ ¬ b < a)] at h
          have hwbs : w ∈ bs := by
            rcases List.mem_cons.mp hwy with rfl | h0
            · have hale : a ≤ w := head_le_of_sorted_mem hx hwx
              omega
            · exact h0
          exact ih (a :: as) bs (by simp only [List.length_cons] at hlen ⊢; omega)
            hx ((List.sorted_cons.mp hy).2) h w hwx hwbs
        · rw [if_neg hab, if_pos (by omega : ¬ b < a)] at h
          cases h

theorem intersect2_some_mem : ∀ (n : Nat) (xs ys xs' ys' : List Nat),
    xs.length + ys.length ≤ n →
    List.Sorted (· < ·) xs → List.Sorted (· < ·) ys →
    intersect2 xs ys = some (xs', ys') →
    ∀ w, w ∈ xs → w ∈ ys → w ∈ xs' := by
  intro n
  induction n with
  | zero =>
    intro xs ys xs' ys' hlen _ _ _ w hwx _
    have : xs = [] := List.length_eq_zero.mp (by omega)
    rw [this] at hwx
    cases hwx
  | succ n ih =>
    intro xs ys xs' ys' hlen hx hy h w hwx hwy
    match xs, ys with
    | [], ys => cases hwx
    | a :: as, [] => cases hwy
    | a :: as, b :: bs =>
      rw [intersect2_cons] at h
      by_cases hab : a < b
      · rw [if_pos hab] at h
        have hwas : w ∈ as := by
          rcases List.mem_cons.mp hwx with rfl | h0
          · have hble : b ≤ w := head_le_of_sorted_mem hy hwy
            omega
          · exact h0
        exact ih as (b :: bs) xs' ys' (by simp only [List.length_cons] at hlen ⊢; omega)
          ((List.sorted_cons.mp hx).2) hy h w hwas hwy
      · by_cases hba : b < a
        · rw [if_neg hab, if_neg (by omega : ¬ ¬ b < a)] at h
          have hwbs : w ∈ bs := by
            rcases List.mem_cons.mp hwy with rfl | h0
            · have hale : a ≤ w := head_le_of_sorted_mem hx hwx
              omega
            · exact h0
          exact ih (a :: as) bs xs' ys' (by simp only [List.length_cons] at hlen ⊢; omega)
            hx ((List.sorted_cons.mp hy).2) h w hwx hwbs
        · rw [if_neg hab, if_pos (by omega : ¬ b < a)] at h
          injection h with h
          injection h with h1 _
          exact h1 ▸ hwx

theorem begin2_none_mem {xs ys : List Nat}
    (hx : List.Sorted (· < ·) xs) (hy : List.Sorted (· < ·) ys)
    (h : begin2 xs ys = none) : ∀ w, w ∈ xs → w ∈ ys → False := by
  intro w hwx hwy
  match xs, ys with
  | [], ys => cases hwx
  | a :: as, [] => cases hwy
  | a :: as, b :: bs =>
    simp only [begin2] at h
    by_cases hba : b = a
    · rw [if_pos hba] at h
      cases h
    · rw [if_neg hba] at h
      exact intersect2_none_mem ((a :: as).length + (b :: bs).length) _ _ (Nat.le_refl _)
        hx hy h w hwx hwy

theorem begin2_some_shape {xs ys xs' ys' : List Nat}
    (h : begin2 xs ys = some (xs', ys')) :
    (∃ v as bs, xs' = v :: as ∧ ys' = v :: bs) ∧ xs' <:+ xs ∧ ys' <:+ ys := by
  match xs, ys with
  | [], ys => simp only [begin2] at h; cases h
  | a :: as, [] => simp only [begin2] at h; cases h
  | a :: as, b :: bs =>
    simp only [begin2] at h
    by_cases hba : b = a
    · rw [if_pos hba] at h
      injection h with h
      injection h with h1 h2
      subst h1
      subst h2
      exact ⟨⟨a, as, bs, rfl, by rw [hba]⟩, List.suffix_refl _, List.suffix_refl _⟩
    · rw [if_neg hba] at h
      exact intersect2_some_shape ((a :: as).length + (b :: bs).length) _ _ _ _
        (Nat.le_refl _) h

theorem begin2_some_mem {xs ys xs' ys' : List Nat}
    (hx : List.Sorted (· < ·) xs) (hy : List.Sorted (· < ·) ys)
    (h : begin2 xs ys = some (xs', ys')) :
    ∀ w, w ∈ xs → w ∈ ys → w ∈ xs' := by
  intro w hwx hwy
  match xs, ys with
  | [], ys => cases hwx
  | a :: as, [] => cases hwy
  | a :: as, b :: bs =>
    simp only [begin2] at h
    by_cases hba : b = a
    · rw [if_pos hba] at h
      injection h with h
      injection h with h1 _
      exact h1 ▸ hwx
    · rw [if_neg hba] at h
      exact intersect2_some_mem ((a :: as).length + (b :: bs).length) _ _ _ _
        (Nat.le_refl _) hx hy h w hwx hwy

/-- `increment2` is exactly "advance each cursor one position, then run the
`begin2` matching logic on the advanced cursors". -/
theorem increment2_eq (x y : Nat) (as bs : List Nat) :
    increment2 (x :: as) (y :: bs) = begin2 as bs := by
  unfold increment2 begin2
  cases as <;> cases bs <;> rfl

theorem increment2_some_length {xs ys xs' ys' : List Nat}
    (h : increment2 xs ys = some (xs', ys')) : xs'.length < xs.length := by
  match xs, ys with
  | [], ys => unfold increment2 at h; cases h
  | x :: as, [] => unfold increment2 at h; cases h
  | x :: as, y :: bs =>
    rw [increment2_eq] at h
    have := (begin2_some_shape h).2.1.length_le
    simp only [List.length_cons]
    omega

/-- The stream of ids yielded by repeated `increment2` calls after a match. -/
def go2 (xs ys : List Nat) : List Nat :=
  match h : increment2 xs ys with
  | none => []
  | some (xs', ys') => xs'.headD 0 :: go2 xs' ys'
termination_by xs.length
decreasing_by exact increment2_some_length h

/-- The full iteration a `View` over two collections performs: position via
`begin2`, then repeatedly `increment2`, collecting the common id at every
success until the first failure. -/
def run2 (xs ys : List Nat) : List Nat :=
  match begin2 xs ys with
  | none => []
  | some (xs', ys') => xs'.headD 0 :: go2 xs' ys'

theorem go2_none {xs ys : List Nat} (h : increment2 xs ys = none) : go2 xs ys = [] := by
  unfold go2
  split
  · rfl
  · rename_i xs' ys' heq
    rw [h] at heq
    cases heq

theorem go2_some {xs ys xs' ys' : List Nat} (h : increment2 xs ys = some (xs', ys')) :
    go2 xs ys = xs'.headD 0 :: go2 xs' ys' := by
  conv_lhs => unfold go2
  split
  · rename_i heq
    rw [h] at heq
    cases heq
  · rename_i xs'' ys'' heq
    rw [h] at heq
    injection heq with heq
    injection heq with h1 h2
    subst h1
    subst h2
    rfl

theorem go2_eq_run2_tail (x y : Nat) (as bs : List Nat) :
    go2 (x :: as) (y :: bs) = run2 as bs := by
  cases hbb : begin2 as bs with
  | none =>
    rw [go2_none (by rw [increment2_eq]; exact hbb)]
    unfold run2
    rw [hbb]
  | some p =>
    obtain ⟨xs', ys'⟩ := p
    rw [go2_some (by rw [increment2_eq]; exact hbb)]
    unfold run2
    rw [hbb]

/-- Enumeration via `begin2`/`increment2` yields exactly the ids common to
the two sorted sequences, in order. -/
theorem run2_eq_filter : ∀ (n : Nat) (xs ys : List Nat), xs.length ≤ n →
    List.Sorted (· < ·) xs → List.Sorted (· < ·) ys →
    run2 xs ys = xs.filter (fun v => decide (v ∈ ys)) := by
  intro n
  induction n with
  | zero =>
    intro xs ys hlen hx hy
    have hxnil : xs = [] := List.length_eq_zero.mp (by omega)
    subst hxnil
    unfold run2 begin2
    rfl
  | succ n ih =>
    intro xs ys hlen hx hy
    cases hb : begin2 xs ys with
    | none =>
      unfold run2
      rw [hb]
      have hmem := begin2_none_mem hx hy hb
      have hfil : xs.filter (fun v => decide (v ∈ ys)) = [] := by
        rw [List.filter_eq_nil_iff]
        intro w hw hdec
        exact hmem w hw (of_decide_eq_true hdec)
      rw [hfil]
    | some p =>
      obtain ⟨xs', ys'⟩ := p
      obtain ⟨⟨v, as', bs', rfl, rfl⟩, hsx, hsy⟩ := begin2_some_shape hb
      have hmem := begin2_some_mem hx hy hb
      have hsx' : List.Sorted (· < ·) (v :: as') := sorted_of_suffix hsx hx
      have hsy' : List.Sorted (· < ·) (v :: bs') := sorted_of_suffix hsy hy
      unfold run2
      rw [hb]
      show v :: go2 (v :: as') (v :: bs') = _
      rw [go2_eq_run2_tail]
      have hlen2 : as'.length ≤ n := by
        have h1 := hsx.length_le
        simp only [List.length_cons] at h1 hlen
        omega
      rw [ih as' bs' hlen2 hsx'.of_cons hsy'.of_cons]
      have hstep1 : xs.filter (fun w => decide (w ∈ ys)) =
          (v :: as').filter (fun w => decide (w ∈ ys)) := by
        refine filter_eq_of_suffix hx hsx ?_
        intro w hw hdec
        exact hmem w hw (of_decide_eq_true hdec)
      have hvmem : v ∈ ys := hsy.subset (List.mem_cons_self v bs')
      have hstep2 : (v :: as').filter (fun w => decide (w ∈ ys)) =
          v :: as'.filter (fun w => decide (w ∈ ys)) := by
        rw [List.filter_cons, if_pos (by simpa using hvmem)]
      have hstep3 : as'.filter (fun w => decide (w ∈ ys)) =
          as'.filter (fun w => decide (w ∈ bs')) := by
        refine List.filter_congr ?_
        intro w hw
        have hvw : v < w := (List.sorted_cons.mp hsx').1 w hw
        simp only [decide_eq_decide]
        exact mem_iff_mem_suffix hy hsy hvw
      rw [hstep1, hstep2, hstep3]

/-! ## Lemmas: N-way advance = dropWhile -/

theorem dropWhile_linearScan (t : Nat) : ∀ (c : Nat) (l : List Nat),
    (linearScan c l t).dropWhile (fun w => decide (w < t)) =
      l.dropWhile (fun w => decide (w < t))
  | 0, _ => rfl
  | _ + 1, [] => rfl
  | c + 1, a :: as => by
    by_cases h : a < t
    · have h1 : linearScan (c + 1) (a :: as) t = linearScan c as t := by
        simp [linearScan, h]
      rw [h1, dropWhile_linearScan t c as]
      conv_rhs => rw [List.dropWhile_cons]
      rw [if_pos (by simpa using h)]
    · have h1 : linearScan (c + 1) (a :: as) t = a :: as := by
        simp [linearScan, h]
      rw [h1]

theorem lowerBoundFrom_eq_dropWhile : ∀ (l : List Nat) (t : Nat),
    lowerBoundFrom l t = l.dropWhile (fun w => decide (w < t))
  | [], _ => rfl
  | a :: as, t => by
    rw [lowerBoundFrom, List.dropWhile_cons]
    by_cases h : a < t
    · rw [if_pos h, if_pos (by simpa using h), lowerBoundFrom_eq_dropWhile as t]
    · rw [if_neg h, if_neg (by simpa using h)]

/-- The adaptive advance (bounded linear scan, then binary search) lands on
exactly the first element not below the target: it is `dropWhile (< t)`. -/
theorem advanceIt_eq_dropWhile (l : List Nat) (t : Nat) :
    advanceIt l t = l.dropWhile (fun w => decide (w < t)) := by
  unfold advanceIt
  have hscan := dropWhile_linearScan t 32 l
  cases hls : linearScan 32 l t with
  | nil =>
    rw [hls] at hscan
    simp only [List.dropWhile_nil] at hscan
    exact hscan
  | cons a as =>
    rw [hls] at hscan
    show (if a < t then lowerBoundFrom (a :: as) t else a :: as) = _
    by_cases h : a < t
    · rw [if_pos h, lowerBoundFrom_eq_dropWhile]
      exact hscan
    · rw [if_neg h, ← hscan, List.dropWhile_cons, if_neg (by simpa using h)]

/-- The guarded per-cursor advance of `intersectN` (`if (*it < maxId)`,
then the adaptive advance) is `dropWhile (< maxId)` outright: a cursor
already at the maximum is left where it is, which is also where `dropWhile`
leaves it. -/
theorem advGuard_eq (a m : Nat) (as : List Nat) :
    (if a < m then advanceIt (a :: as) m else a :: as) =
      (a :: as).dropWhile (fun w => decide (w < m)) := by
  by_cases h : a < m
  · rw [if_pos h, advanceIt_eq_dropWhile]
  · rw [if_neg h, List.dropWhile_cons, if_neg (by simpa using h)]

theorem mem_dropWhile_of_not_lt {l : List Nat} {w m : Nat} (hw : w ∈ l)
    (hge : ¬ w < m) : w ∈ l.dropWhile (fun x => decide (x < m)) := by
  have hsplit := List.takeWhile_append_dropWhile (fun x => decide (x < m)) l
  rw [← hsplit] at hw
  rcases List.mem_append.mp hw with h | h
  · have hp := List.mem_takeWhile_imp h
    simp only [decide_eq_true_eq] at hp
    exact absurd hp hge
  · exact h

theorem dropWhile_suffix (l : List Nat) (p : Nat → Bool) : l.dropWhile p <:+ l :=
  ⟨l.takeWhile p, List.takeWhile_append_dropWhile p l⟩

theorem dropWhile_length_le (l : List Nat) (p : Nat → Bool) :
    (l.dropWhile p).length ≤ l.length :=
  (List.dropWhile_sublist _).length_le

/-! ## Lemmas: 3-way intersection -/

theorem intersect3_nil₁ (ys zs : List Nat) : intersect3 [] ys zs = none := by
  unfold intersect3
  rfl

theorem intersect3_nil₂ (xs zs : List Nat) : intersect3 xs [] zs = none := by
  unfold intersect3
  cases xs <;> rfl

theorem intersect3_nil₃ (xs ys : List Nat) : intersect3 xs ys [] = none := by
  unfold intersect3
  cases xs <;> cases ys <;> rfl

/-- Clean one-round equation for `intersect3`, with the adaptive advances
rewritten to `dropWhile`. -/
theorem intersect3_cons (a b c : Nat) (as bs cs : List Nat) :
    intersect3 (a :: as) (b :: bs) (c :: cs) =
      if (a :: as).dropWhile (fun w => decide (w < max a (max b c))) = [] ∨
         (b :: bs).dropWhile (fun w => decide (w < max a (max b c))) = [] ∨
         (c :: cs).dropWhile (fun w => decide (w < max a (max b c))) = [] then none
      else if a = max a (max b c) ∧ b = max a (max b c) ∧ c = max a (max b c) then
        some (a :: as, b :: bs, c :: cs)
      else
        intersect3 ((a :: as).dropWhile (fun w => decide (w < max a (max b c))))
          ((b :: bs).dropWhile (fun w => decide (w < max a (max b c))))
          ((c :: cs).dropWhile (fun w => decide (w < max a (max b c)))) := by
  conv_lhs => unfold intersect3
  simp only [dite_eq_ite]
  rw [advGuard_eq a (max a (max b c)) as, advGuard_eq b (max a (max b c)) bs,
    advGuard_eq c (max a (max b c)) cs]

theorem max3_cases {a b c : Nat}
    (h : ¬(a = max a (max b c) ∧ b = max a (max b c) ∧ c = max a (max b c))) :
    a < max a (max b c) ∨ b < max a (max b c) ∨ c < max a (max b c) := by
  by_contra hno
  push_neg at hno
  have ha : a ≤ max a (max b c) := Nat.le_max_left _ _
  have hb : b ≤ max a (max b c) := Nat.le_trans (Nat.le_max_left _ _) (Nat.le_max_right _ _)
  have hc : c ≤ max a (max b c) := Nat.le_trans (Nat.le_max_right _ _) (Nat.le_max_right _ _)
  exact h ⟨Nat.le_antisymm ha hno.1, Nat.le_antisymm hb hno.2.1, Nat.le_antisymm hc hno.2.2⟩

theorem dropWhile_cons_length_lt {x m : Nat} (l : List Nat) (h : x < m) :
    ((x :: l).dropWhile (fun w => decide (w < m))).length < (x :: l).length := by
  rw [List.dropWhile_cons, if_pos (by simpa using h)]
  have := dropWhile_length_le l (fun w => decide (w < m))
  simp only [List.length_cons]
  omega

/-- A key common to all three sorted cursors is at least the round's
maximum, hence survives every advance of the round. -/
theorem common_mem_dropWhile {a b c w : Nat} {as bs cs : List Nat}
    (hx : List.Sorted (· < ·) (a :: as)) (hy : List.Sorted (· < ·) (b :: bs))
    (hz : List.Sorted (· < ·) (c :: cs))
    (hwx : w ∈ a :: as) (hwy : w ∈ b :: bs) (hwz : w ∈ c :: cs) :
    w ∈ (a :: as).dropWhile (fun v => decide (v < max a (max b c))) ∧
    w ∈ (b :: bs).dropWhile (fun v => decide (v < max a (max b c))) ∧
    w ∈ (c :: cs).dropWhile (fun v => decide (v < max a (max b c))) := by
  have h1 : a ≤ w := head_le_of_sorted_mem hx hwx
  have h2 : b ≤ w := head_le_of_sorted_mem hy hwy
  have h3 : c ≤ w := head_le_of_sorted_mem hz hwz
  have hge : ¬ w < max a (max b c) := by omega
  exact ⟨mem_dropWhile_of_not_lt hwx hge, mem_dropWhile_of_not_lt hwy hge,
    mem_dropWhile_of_not_lt hwz hge⟩

theorem intersect3_none_mem : ∀ (n : Nat) (xs ys zs : List Nat),
    xs.length + ys.length + zs.length ≤ n →
    List.Sorted (· < ·) xs → List.Sorted (· < ·) ys → List.Sorted (· < ·) zs →
    intersect3 xs ys zs = none →
    ∀ w, w ∈ xs → w ∈ ys → w ∈ zs → False := by
  intro n
  induction n with
  | zero =>
    intro xs ys zs hlen _ _ _ _ w hwx _ _
    have hnil : xs = [] := List.length_eq_zero.mp (by omega)
    subst hnil
    cases hwx
  | succ n ih =>
    intro xs ys zs hlen hx hy hz h w hwx hwy hwz
    match xs, ys, zs with
    | [], _, _ => cases hwx
    | _ :: _, [], _ => cases hwy
    | _ :: _, _ :: _, [] => cases hwz
    | a :: as, b :: bs, c :: cs =>
      rw [intersect3_cons] at h
      obtain ⟨hdx, hdy, hdz⟩ := common_mem_dropWhile hx hy hz hwx hwy hwz
      by_cases hend : (a :: as).dropWhile (fun v => decide (v < max a (max b c))) = [] ∨
          (b :: bs).dropWhile (fun v => decide (v < max a (max b c))) = [] ∨
          (c :: cs).dropWhile (fun v => decide (v < max a (max b c))) = []
      · rcases hend with h0 | h0 | h0
        · rw [h0] at hdx; cases hdx
        · rw [h0] at hdy; cases hdy
        · rw [h0] at hdz; cases hdz
      · rw [if_neg hend] at h
        by_cases hmax : a = max a (max b c) ∧ b = max a (max b c) ∧ c = max a (max b c)
        · rw [if_pos hmax] at h
          cases h
        · rw [if_neg hmax] at h
          have hsx : List.Sorted (· < ·)
              ((a :: as).dropWhile (fun v => decide (v < max a (max b c)))) :=
            hx.sublist (List.dropWhile_sublist _)
          have hsy : List.Sorted (· < ·)
              ((b :: bs).dropWhile (fun v => decide (v < max a (max b c)))) :=
            hy.sublist (List.dropWhile_sublist _)
          have hsz : List.Sorted (· < ·)
              ((c :: cs).dropWhile (fun v => decide (v < max a (max b c)))) :=
            hz.sublist (List.dropWhile_sublist _)
          have hb1 := dropWhile_length_le (a :: as) (fun v => decide (v < max a (max b c)))
          have hb2 := dropWhile_length_le (b :: bs) (fun v => decide (v < max a (max b c)))
          have hb3 := dropWhile_length_le (c :: cs) (fun v => decide (v < max a (max b c)))
          have hlen' : ((a :: as).dropWhile (fun v => decide (v < max a (max b c)))).length +
              ((b :: bs).dropWhile (fun v => decide (v < max a (max b c)))).length +
              ((c :: cs).dropWhile (fun v => decide (v < max a (max b c)))).length ≤ n := by
            rcases max3_cases hmax with hlt | hlt | hlt
            · have := dropWhile_cons_length_lt as hlt
              simp only [List.length_cons] at *
              omega
            · have := dropWhile_cons_length_lt bs hlt
              simp only [List.length_cons] at *
              omega
            · have := dropWhile_cons_length_lt cs hlt
              simp only [List.length_cons] at *
              omega
          exact ih _ _ _ hlen' hsx hsy hsz h w hdx hdy hdz

theorem intersect3_some_shape : ∀ (n : Nat) (xs ys zs xs' ys' zs' : List Nat),
    xs.length + ys.length + zs.length ≤ n →
    intersect3 xs ys zs = some (xs', ys', zs') →
    (∃ v as bs cs, xs' = v :: as ∧ ys' = v :: bs ∧ zs' = v :: cs) ∧
    xs' <:+ xs ∧ ys' <:+ ys ∧ zs' <:+ zs := by
  intro n
  induction n with
  | zero =>
    intro xs ys zs xs' ys' zs' hlen h
    have hnil : xs = [] := List.length_eq_zero.mp (by omega)
    subst hnil
    rw [intersect3_nil₁] at h
    cases h
  | succ n ih =>
    intro xs ys zs xs' ys' zs' hlen h
    match xs, ys, zs with
    | [], _, _ => rw [intersect3_nil₁] at h; cases h
    | _ :: _, [], _ => rw [intersect3_nil₂] at h; cases h
    | _ :: _, _ :: _, [] => rw [intersect3_nil₃] at h; cases h
    | a :: as, b :: bs, c :: cs =>
      rw [intersect3_cons] at h
      by_cases hend : (a :: as).dropWhile (fun v => decide (v < max a (max b c))) = [] ∨
          (b :: bs).dropWhile (fun v => decide (v < max a (max b c))) = [] ∨
          (c :: cs).dropWhile (fun v => decide (v < max a (max b c))) = []
      · rw [if_pos hend] at h
        cases h
      · rw [if_neg hend] at h
        by_cases hmax : a = max a (max b c) ∧ b = max a (max b c) ∧ c = max a (max b c)
        · rw [if_pos hmax] at h
          injection h with h
          injection h with h1 h
          injection h with h2 h3
          subst h1
          subst h2
          subst h3
          refine ⟨⟨a, as, bs, cs, rfl, ?_, ?_⟩, List.suffix_refl _, List.suffix_refl _,
            List.suffix_refl _⟩
          · rw [hmax.2.1, ← hmax.1]
          · rw [hmax.2.2, ← hmax.1]
        · rw [if_neg hmax] at h
          have hlen' : ((a :: as).dropWhile (fun v => decide (v < max a (max b c)))).length +
              ((b :: bs).dropWhile (fun v => decide (v < max a (max b c)))).length +
              ((c :: cs).dropWhile (fun v => decide (v < max a (max b c)))).length ≤ n := by
            have hb1 := dropWhile_length_le (a :: as) (fun v => decide (v < max a (max b c)))
            have hb2 := dropWhile_length_le (b :: bs) (fun v => decide (v < max a (max b c)))
            have hb3 := dropWhile_length_le (c :: cs) (fun v => decide (v < max a (max b c)))
            rcases max3_cases hmax with hlt | hlt | hlt
            · have := dropWhile_cons_length_lt as hlt
              simp only [List.length_cons] at *
              omega
            · have := dropWhile_cons_length_lt bs hlt
              simp only [List.length_cons] at *
              omega
            · have := dropWhile_cons_length_lt cs hlt
              simp only [List.length_cons] at *
              omega
          obtain ⟨hv, hsx, hsy, hsz⟩ := ih _ _ _ _ _ _ hlen' h
          exact ⟨hv, hsx.trans (dropWhile_suffix _ _), hsy.trans (dropWhile_suffix _ _),
            hsz.trans (dropWhile_suffix _ _)⟩

theorem intersect3_some_mem : ∀ (n : Nat) (xs ys zs xs' ys' zs' : List Nat),
    xs.length + ys.length + zs.length ≤ n →
    List.Sorted (· < ·) xs → List.Sorted (· < ·) ys → List.Sorted (· < ·) zs →
    intersect3 xs ys zs = some (xs', ys', zs') →
    ∀ w, w ∈ xs → w ∈ ys → w ∈ zs → w ∈ xs' := by
  intro n
  induction n with
  | zero =>
    intro xs ys zs xs' ys' zs' hlen _ _ _ _ w hwx _ _
    have hnil : xs = [] := List.length_eq_zero.mp (by omega)
    subst hnil
    cases hwx
  | succ n ih =>
    intro xs ys zs xs' ys' zs' hlen hx hy hz h w hwx hwy hwz
    match xs, ys, zs with
    | [], _, _ => cases hwx
    | _ :: _, [], _ => cases hwy
    | _ :: _, _ :: _, [] => cases hwz
    | a :: as, b :: bs, c :: cs =>
      rw [intersect3_cons] at h
      obtain ⟨hdx, hdy, hdz⟩ := common_mem_dropWhile hx hy hz hwx hwy hwz
      by_cases hend : (a :: as).dropWhile (fun v => decide (v < max a (max b c))) = [] ∨
          (b :: bs).dropWhile (fun v => decide (v < max a (max b c))) = [] ∨
          (c :: cs).dropWhile (fun v => decide (v < max a (max b c))) = []
      · rw [if_pos hend] at h
        cases h
      · rw [if_neg hend] at h
        by_cases hmax : a = max a (max b c) ∧ b = max a (max b c) ∧ c = max a (max b c)
        · rw [if_pos hmax] at h
          injection h with h
          injection h with h1 h
          injection h with h2 h3
          exact h1 ▸ hwx
        · rw [if_neg hmax] at h
          have hsx : List.Sorted (· < ·)
              ((a :: as).dropWhile (fun v => decide (v < max a (max b c)))) :=
            hx.sublist (List.dropWhile_sublist _)
          have hsy : List.Sorted (· < ·)
              ((b :: bs).dropWhile (fun v => decide (v < max a (max b c)))) :=
            hy.sublist (List.dropWhile_sublist _)
          have hsz : List.Sorted (· < ·)
              ((c :: cs).dropWhile (fun v => decide (v < max a (max b c)))) :=
            hz.sublist (List.dropWhile_sublist _)
          have hlen' : ((a :: as).dropWhile (fun v => decide (v < max a (max b c)))).length +
              ((b :: bs).dropWhile (fun v => decide (v < max a (max b c)))).length +
              ((c :: cs).dropWhile (fun v => decide (v < max a (max b c)))).length ≤ n := by
            have hb1 := dropWhile_length_le (a :: as) (fun v => decide (v < max a (max b c)))
            have hb2 := dropWhile_length_le (b :: bs) (fun v => decide (v < max a (max b c)))
            have hb3 := dropWhile_length_le (c :: cs) (fun v => decide (v < max a (max b c)))
            rcases max3_cases hmax with hlt | hlt | hlt
            · have := dropWhile_cons_length_lt as hlt
              simp only [List.length_cons] at *
              omega
            · have := dropWhile_cons_length_lt bs hlt
              simp only [List.length_cons] at *
              omega
            · have := dropWhile_cons_length_lt cs hlt
              simp only [List.length_cons] at *
              omega
          exact ih _ _ _ _ _ _ hlen' hsx hsy hsz h w hdx hdy hdz

theorem begin3_none_mem {xs ys zs : List Nat}
    (hx : List.Sorted (· < ·) xs) (hy : List.Sorted (· < ·) ys)
    (hz : List.Sorted (· < ·) zs) (h : begin3 xs ys zs = none) :
    ∀ w, w ∈ xs → w ∈ ys → w ∈ zs → False := by
  intro w hwx hwy hwz
  match xs, ys, zs with
  | [], _, _ => cases hwx
  | _ :: _, [], _ => cases hwy
  | _ :: _, _ :: _, [] => cases hwz
  | a :: as, b :: bs, c :: cs =>
    simp only [begin3] at h
    by_cases hba : b = a ∧ c = a
    · rw [if_pos hba] at h
      cases h
    · rw [if_neg hba] at h
      exact intersect3_none_mem ((a :: as).length + (b :: bs).length + (c :: cs).length)
        _ _ _ (Nat.le_refl _) hx hy hz h w hwx hwy hwz

theorem begin3_some_shape {xs ys zs xs' ys' zs' : List Nat}
    (h : begin3 xs ys zs = some (xs', ys', zs')) :
    (∃ v as bs cs, xs' = v :: as ∧ ys' = v :: bs ∧ zs' = v :: cs) ∧
    xs' <:+ xs ∧ ys' <:+ ys ∧ zs' <:+ zs := by
  match xs, ys, zs with
  | [], _, _ => simp only [begin3] at h; cases h
  | _ :: _, [], _ => simp only [begin3] at h; cases h
  | _ :: _, _ :: _, [] => simp only [begin3] at h; cases h
  | a :: as, b :: bs, c :: cs =>
    simp only [begin3] at h
    by_cases hba : b = a ∧ c = a
    · rw [if_pos hba] at h
      injection h with h
      injection h with h1 h
      injection h with h2 h3
      subst h1
      subst h2
      subst h3
      exact ⟨⟨a, as, bs, cs, rfl, by rw [hba.1], by rw [hba.2]⟩, List.suffix_refl _,
        List.suffix_refl _, List.suffix_refl _⟩
    · rw [if_neg hba] at h
      exact intersect3_some_shape ((a :: as).length + (b :: bs).length + (c :: cs).length)
        _ _ _ _ _ _ (Nat.le_refl _) h

theorem begin3_some_mem {xs ys zs xs' ys' zs' : List Nat}
    (hx : List.Sorted (· < ·) xs) (hy : List.Sorted (· < ·) ys)
    (hz : List.Sorted (· < ·) zs) (h : begin3 xs ys zs = some (xs', ys', zs')) :
    ∀ w, w ∈ xs → w ∈ ys → w ∈ zs → w ∈ xs' := by
  intro w hwx hwy hwz
  match xs, ys, zs with
  | [], _, _ => cases hwx
  | _ :: _, [], _ => cases hwy
  | _ :: _, _ :: _, [] => cases hwz
  | a :: as, b :: bs, c :: cs =>
    simp only [begin3] at h
    by_cases hba : b = a ∧ c = a
    · rw [if_pos hba] at h
      injection h with h
      injection h with h1 _
      exact h1 ▸ hwx
    · rw [if_neg hba] at h
      exact intersect3_some_mem ((a :: as).length + (b :: bs).length + (c :: cs).length)
        _ _ _ _ _ _ (Nat.le_refl _) hx hy hz h w hwx hwy hwz

/-- `incrementN` (at three cursors) is exactly "advance each cursor one
position, then run the `beginN` matching logic on the advanced cursors". -/
theorem increment3_eq (x y z : Nat) (as bs cs : List Nat) :
    increment3 (x :: as) (y :: bs) (z :: cs) = begin3 as bs cs := by
  unfold increment3 begin3
  cases as <;> cases bs <;> cases cs <;> rfl

theorem increment3_some_length {xs ys zs xs' ys' zs' : List Nat}
    (h : increment3 xs ys zs = some (xs', ys', zs')) : xs'.length < xs.length := by
  match xs, ys, zs with
  | [], _, _ => simp only [increment3] at h; cases h
  | _ :: _, [], _ => simp only [increment3] at h; cases h
  | _ :: _, _ :: _, [] => simp only [increment3] at h; cases h
  | x :: as, y :: bs, z :: cs =>
    rw [increment3_eq] at h
    have := (begin3_some_shape h).2.1.length_le
    simp only [List.length_cons]
    omega

/-- The stream of ids yielded by repeated `incrementN` calls after a match. -/
def go3 (xs ys zs : List Nat) : List Nat :=
  match h : increment3 xs ys zs with
  | none => []
  | some (xs', ys', zs') => xs'.headD 0 :: go3 xs' ys' zs'
termination_by xs.length
decreasing_by exact increment3_some_length h

/-- The full iteration a `View` over three collections performs: position
via `beginN`, then repeatedly `incrementN`, collecting the common id at
every success until the first failure. -/
def run3 (xs ys zs : List Nat) : List Nat :=
  match begin3 xs ys zs with
  | none => []
  | some (xs', ys', zs') => xs'.headD 0 :: go3 xs' ys' zs'

theorem go3_none {xs ys zs : List Nat} (h : increment3 xs ys zs = none) :
    go3 xs ys zs = [] := by
  conv_lhs => unfold go3
  split
  · rfl
  · rename_i xs' ys' zs' heq
    rw [h] at heq
    cases heq

theorem go3_some {xs ys zs xs' ys' zs' : List Nat}
    (h : increment3 xs ys zs = some (xs', ys', zs')) :
    go3 xs ys zs = xs'.headD 0 :: go3 xs' ys' zs' := by
  conv_lhs => unfold go3
  split
  · rename_i heq
    rw [h] at heq
    cases heq
  · rename_i xs'' ys'' zs'' heq
    rw [h] at heq
    injection heq with heq
    injection heq with h1 heq
    injection heq with h2 h3
    subst h1
    subst h2
    subst h3
    rfl

theorem go3_eq_run3_tail (x y z : Nat) (as bs cs : List Nat) :
    go3 (x :: as) (y :: bs) (z :: cs) = run3 as bs cs := by
  cases hbb : begin3 as bs cs with
  | none =>
    rw [go3_none (by rw [increment3_eq]; exact hbb)]
    unfold run3
    rw [hbb]
  | some p =>
    obtain ⟨xs', ys', zs'⟩ := p
    rw [go3_some (by rw [increment3_eq]; exact hbb)]
    unfold run3
    rw [hbb]

/-- Enumeration via `beginN`/`incrementN` yields exactly the ids common to
the three sorted sequences, in order. -/
theorem run3_eq_filter : ∀ (n : Nat) (xs ys zs : List Nat), xs.length ≤ n →
    List.Sorted (· < ·) xs → List.Sorted (· < ·) ys → List.Sorted (· < ·) zs →
    run3 xs ys zs = xs.filter (fun v => decide (v ∈ ys) && decide (v ∈ zs)) := by
  intro n
  induction n with
  | zero =>
    intro xs ys zs hlen hx hy hz
    have hxnil : xs = [] := List.length_eq_zero.mp (by omega)
    subst hxnil
    unfold run3 begin3
    rfl
  | succ n ih =>
    intro xs ys zs hlen hx hy hz
    cases hb : begin3 xs ys zs with
    | none =>
      unfold run3
      rw [hb]
      have hmem := begin3_none_mem hx hy hz hb
      have hfil : xs.filter (fun v => decide (v ∈ ys) && decide (v ∈ zs)) = [] := by
        rw [List.filter_eq_nil_iff]
        intro w hw hdec
        rw [Bool.and_eq_true, decide_eq_true_eq, decide_eq_true_eq] at hdec
        exact hmem w hw hdec.1 hdec.2
      rw [hfil]
    | some p =>
      obtain ⟨xs', ys', zs'⟩ := p
      obtain ⟨⟨v, as', bs', cs', rfl, rfl, rfl⟩, hsx, hsy, hsz⟩ := begin3_some_shape hb
      have hmem := begin3_some_mem hx hy hz hb
      have hsx' : List.Sorted (· < ·) (v :: as') := sorted_of_suffix hsx hx
      have hsy' : List.Sorted (· < ·) (v :: bs') := sorted_of_suffix hsy hy
      have hsz' : List.Sorted (· < ·) (v :: cs') := sorted_of_suffix hsz hz
      unfold run3
      rw [hb]
      show v :: go3 (v :: as') (v :: bs') (v :: cs') = _
      rw [go3_eq_run3_tail]
      have hlen2 : as'.length ≤ n := by
        have h1 := hsx.length_le
        simp only [List.length_cons] at h1 hlen
        omega
      rw [ih as' bs' cs' hlen2 hsx'.of_cons hsy'.of_cons hsz'.of_cons]
      have hstep1 : xs.filter (fun w => decide (w ∈ ys) && decide (w ∈ zs)) =
          (v :: as').filter (fun w => decide (w ∈ ys) && decide (w ∈ zs)) := by
        refine filter_eq_of_suffix hx hsx ?_
        intro w hw hdec
        rw [Bool.and_eq_true, decide_eq_true_eq, decide_eq_true_eq] at hdec
        exact hmem w hw hdec.1 hdec.2
      have hvy : v ∈ ys := hsy.subset (List.mem_cons_self v bs')
      have hvz : v ∈ zs := hsz.subset (List.mem_cons_self v cs')
      have hstep2 : (v :: as').filter (fun w => decide (w ∈ ys) && decide (w ∈ zs)) =
          v :: as'.filter (fun w => decide (w ∈ ys) && decide (w ∈ zs)) := by
        rw [List.filter_cons, if_pos (by simp [hvy, hvz])]
      have hstep3 : as'.filter (fun w => decide (w ∈ ys) && decide (w ∈ zs)) =
          as'.filter (fun w => decide (w ∈ bs') && decide (w ∈ cs')) := by
        refine List.filter_congr ?_
        intro w hw
        have hvw : v < w := (List.sorted_cons.mp hsx').1 w hw
        rw [decide_eq_decide.mpr (mem_iff_mem_suffix hy hsy hvw),
          decide_eq_decide.mpr (mem_iff_mem_suffix hz hsz hvw)]
      rw [hstep1, hstep2, hstep3]

/-! ## Claims -/

/-- C1: the claim states `Collection::get(entityId)` fails with a
not-found/invalid-argument condition whenever the id is absent and never
returns a component belonging to a different entity.  The code violates
this: `get` only tests `iFind == ids_.end()`, so on a collection holding
only entity 5 (component value 99), the absent id 3 — `has` is false and
`find` is null for it — is answered by `get` with entity 5's component
instead of the documented `std::invalid_argument`.  Only a probe past the
last id (here 7) actually throws. -/
theorem c1_get_returns_wrong_entity :
    Collection.has ⟨[5], [99]⟩ 3 = false ∧
    Collection.find (⟨[5], [99]⟩ : Collection Nat) 3 = none ∧
    Collection.get (⟨[5], [99]⟩ : Collection Nat) 3 = Except.ok 99 ∧
    Collection.get (⟨[5], [99]⟩ : Collection Nat) 7 =
      Except.error "invalid_argument: EntityId does not have this component type for call to Collection::get()" :=
  ⟨rfl, rfl, rfl, rfl⟩

/-- C2: over strictly ascending id sequences, the intersection enumeration
(`begin2`/`increment2`, and `beginN`/`incrementN` at three cursors) yields
exactly the ids common to all sequences, in ascending order (the filter of
the first sorted sequence), and reports failure once no further common id
exists; in particular A={1,3,5,7}, B={2,4,5,8} yields exactly 5 (and the
disjoint B'={2,4,6,8} yields nothing), and A={5,10,15,20},
B={5,10,12,20,25}, C={1,5,10,20} yields exactly 5,10,20 and then fails. -/
theorem c2_intersection_yields_common_ids :
    (∀ xs ys : List Nat, List.Sorted (· < ·) xs → List.Sorted (· < ·) ys →
      run2 xs ys = xs.filter (fun v => decide (v ∈ ys))) ∧
    (∀ xs ys zs : List Nat, List.Sorted (· < ·) xs → List.Sorted (· < ·) ys →
      List.Sorted (· < ·) zs →
      run3 xs ys zs = xs.filter (fun v => decide (v ∈ ys) && decide (v ∈ zs))) ∧
    run2 [1, 3, 5, 7] [2, 4, 5, 8] = [5] ∧
    run2 [1, 3, 5, 7] [2, 4, 6, 8] = [] ∧
    run3 [5, 10, 15, 20] [5, 10, 12, 20, 25] [1, 5, 10, 20] = [5, 10, 20] ∧
    increment3 [20] [20, 25] [20] = none := by
  have h2 : ∀ xs ys : List Nat, List.Sorted (· < ·) xs → List.Sorted (· < ·) ys →
      run2 xs ys = xs.filter (fun v => decide (v ∈ ys)) :=
    fun xs ys hx hy => run2_eq_filter xs.length xs ys (Nat.le_refl _) hx hy
  have h3 : ∀ xs ys zs : List Nat, List.Sorted (· < ·) xs → List.Sorted (· < ·) ys →
      List.Sorted (· < ·) zs →
      run3 xs ys zs = xs.filter (fun v => decide (v ∈ ys) && decide (v ∈ zs)) :=
    fun xs ys zs hx hy hz => run3_eq_filter xs.length xs ys zs (Nat.le_refl _) hx hy hz
  refine ⟨h2, h3, ?_, ?_, ?_, ?_⟩
  · rw [h2 _ _ (by decide) (by decide)]
    decide
  · rw [h2 _ _ (by decide) (by decide)]
    decide
  · rw [h3 _ _ _ (by decide) (by decide) (by decide)]
    decide
  · rfl

/-- Witness for C2 at the spec's concrete inputs. -/
theorem c2_witness :
    List.Sorted (· < ·) ([1, 3, 5, 7] : List Nat) ∧
    List.Sorted (· < ·) ([2, 4, 5, 8] : List Nat) ∧
    run2 [1, 3, 5, 7] [2, 4, 5, 8] =
      List.filter (fun v => decide (v ∈ ([2, 4, 5, 8] : List Nat))) [1, 3, 5, 7] :=
  ⟨by decide, by decide,
    c2_intersection_yields_common_ids.1 [1, 3, 5, 7] [2, 4, 5, 8] (by decide) (by decide)⟩

/-- C3: `increment2`/`incrementN` advance every cursor by exactly one
position before any matching/search logic runs — each equals the
corresponding `begin` short-circuit-then-search applied to the one-step
advanced cursors — and on success every cursor has made strict forward
progress (the returned cursors are suffixes of the advanced tails), even
when all cursors already agreed on the same id. -/
theorem c3_increment_advances_every_cursor :
    (∀ (x y : Nat) (as bs : List Nat),
      increment2 (x :: as) (y :: bs) = begin2 as bs) ∧
    (∀ (x y z : Nat) (as bs cs : List Nat),
      increment3 (x :: as) (y :: bs) (z :: cs) = begin3 as bs cs) ∧
    (∀ xs ys xs' ys' : List Nat, increment2 xs ys = some (xs', ys') →
      ∃ x as y bs, xs = x :: as ∧ ys = y :: bs ∧ xs' <:+ as ∧ ys' <:+ bs) ∧
    (∀ xs ys zs xs' ys' zs' : List Nat, increment3 xs ys zs = some (xs', ys', zs') →
      ∃ x as y bs z cs, xs = x :: as ∧ ys = y :: bs ∧ zs = z :: cs ∧
        xs' <:+ as ∧ ys' <:+ bs ∧ zs' <:+ cs) := by
  refine ⟨increment2_eq, increment3_eq, ?_, ?_⟩
  · intro xs ys xs' ys' h
    match xs, ys with
    | [], ys => simp only [increment2] at h; cases h
    | x :: as, [] => simp only [increment2] at h; cases h
    | x :: as, y :: bs =>
      rw [increment2_eq] at h
      obtain ⟨_, hsx, hsy⟩ := begin2_some_shape h
      exact ⟨x, as, y, bs, rfl, rfl, hsx, hsy⟩
  · intro xs ys zs xs' ys' zs' h
    match xs, ys, zs with
    | [], _, _ => simp only [increment3] at h; cases h
    | _ :: _, [], _ => simp only [increment3] at h; cases h
    | _ :: _, _ :: _, [] => simp only [increment3] at h; cases h
    | x :: as, y :: bs, z :: cs =>
      rw [increment3_eq] at h
      obtain ⟨_, hsx, hsy, hsz⟩ := begin3_some_shape h
      exact ⟨x, as, y, bs, z, cs, rfl, rfl, rfl, hsx, hsy, hsz⟩

/-- Witness for C3: concrete advance-then-match call, and forward progress
at a concrete successful increment. -/
theorem c3_witness :
    increment2 [1, 5] [2, 5] = begin2 [5] [5] ∧
    (∃ x as y bs, ([1, 5] : List Nat) = x :: as ∧ ([2, 5] : List Nat) = y :: bs ∧
      [5] <:+ as ∧ [5] <:+ bs) :=
  ⟨c3_increment_advances_every_cursor.1 1 2 [5] [5],
    c3_increment_advances_every_cursor.2.2.1 [1, 5] [2, 5] [5] [5] (by rfl)⟩

/-- C4: the claim's first half matches the spec-modelled `EntityId::next()`
(successor, overflow failure exactly at the maximum representable value),
but its conclusion fails on the code: `World::World()` starts
`lastEntityId_` at `EntityId::Invalid`, which in this source is
`UINT32_MAX` — the maximum itself — so the very first
`create()`/`newEntityId()` call hits the overflow case instead of issuing a
valid id (the repo's own `World.CreateEntity` test expects it to
succeed). -/
theorem c4_first_create_overflows :
    (∀ id : Nat, id ≠ uint32Max → entityIdNext id = Except.ok (id + 1)) ∧
    entityIdNext uint32Max = Except.error "overflow_error: EntityId counter overflow" ∧
    WorldState.init.lastEntityId = uint32Max ∧
    WorldState.init.newEntityId =
      Except.error "overflow_error: EntityId counter overflow" := by
  refine ⟨?_, ?_, rfl, rfl⟩
  · intro id h
    unfold entityIdNext
    rw [if_neg h]
  · unfold entityIdNext
    rw [if_pos rfl]

/-- Witness for C4: `next()` away from the maximum succeeds with the
successor. -/
theorem c4_witness : (5 : Nat) ≠ uint32Max ∧ entityIdNext 5 = Except.ok 6 :=
  ⟨by decide, c4_first_create_overflows.1 5 (by decide)⟩

/-- C5: on a collection already holding the id (ids strictly sorted, the
maintained invariant), a second `create` throws `std::invalid_argument` and
returns with the collection — both the ids and the components sequences —
exactly as before: no partial mutation. -/
theorem c5_duplicate_create_rejected :
    ∀ (α : Type) (c : Collection α) (entityId : Nat) (v : α),
      List.Sorted (· < ·) c.ids → entityId ∈ c.ids →
      (c.create entityId v).1 =
        some "invalid_argument: EntityId already has this component type for call to Collection::create()" ∧
      (c.create entityId v).2 = c :=
  fun _ _ _ v hs hm => create_dup v hs hm

/-- Witness for C5 on a concrete two-entry collection. -/
theorem c5_witness :
    List.Sorted (· < ·) (Collection.ids ⟨[1, 4], [10, 11]⟩) ∧ 4 ∈ [1, 4] ∧
    ((⟨[1, 4], [10, 11]⟩ : Collection Nat).create 4 99).1 =
      some "invalid_argument: EntityId already has this component type for call to Collection::create()" ∧
    ((⟨[1, 4], [10, 11]⟩ : Collection Nat).create 4 99).2 = ⟨[1, 4], [10, 11]⟩ :=
  ⟨by decide, by decide,
    (c5_duplicate_create_rejected Nat ⟨[1, 4], [10, 11]⟩ 4 99 (by decide) (by decide)).1,
    (c5_duplicate_create_rejected Nat ⟨[1, 4], [10, 11]⟩ 4 99 (by decide) (by decide)).2⟩

/-- C6: every `create` keeps the id sequence strictly ascending, and hence
after any sequence of `create` calls from a fresh collection, iterating
`begin()..end()` (the `ids` vector) yields strictly ascending entity
ids. -/
theorem c6_ids_strictly_ascending :
    (∀ (α : Type) (c : Collection α) (entityId : Nat) (v : α),
      List.Sorted (· < ·) c.ids → List.Sorted (· < ·) ((c.create entityId v).2.ids)) ∧
    (∀ (α : Type) (ops : List (Nat × α)),
      List.Sorted (· < ·) ((Collection.empty.createSeq ops).ids)) :=
  ⟨fun _ _ e v hs => create_sorted e v hs,
    fun _ ops => createSeq_sorted ops Collection.empty List.sorted_nil⟩

/-- Witness for C6: an out-of-order insert lands in the middle, keeping the
ids sorted. -/
theorem c6_witness :
    List.Sorted (· < ·) (Collection.ids ⟨[2, 7], [20, 70]⟩) ∧
    List.Sorted (· < ·) (((⟨[2, 7], [20, 70]⟩ : Collection Nat).create 5 50).2.ids) :=
  ⟨by decide, c6_ids_strictly_ascending.1 Nat ⟨[2, 7], [20, 70]⟩ 5 50 (by decide)⟩

/-- C7: inserting a fresh id into a well-formed collection (sorted ids,
parallel vectors of equal length) succeeds, and immediately afterwards
`get` returns the stored value and `find` is non-null, pointing at the
stored value. -/
theorem c7_create_get_find_roundtrip :
    ∀ (α : Type) (c : Collection α) (entityId : Nat) (v : α),
      List.Sorted (· < ·) c.ids → entityId ∉ c.ids →
      c.components.length = c.ids.length →
      (c.create entityId v).1 = none ∧
      (c.create entityId v).2.get entityId = Except.ok v ∧
      (c.create entityId v).2.find entityId = some v :=
  fun _ _ _ v hs hx hl => create_roundtrip v hs hx hl

/-- Witness for C7: insert id 5 between 2 and 7 and read it back. -/
theorem c7_witness :
    List.Sorted (· < ·) (Collection.ids ⟨[2, 7], [20, 70]⟩) ∧ 5 ∉ [2, 7] ∧
    ((⟨[2, 7], [20, 70]⟩ : Collection Nat).create 5 50).2.get 5 = Except.ok 50 ∧
    ((⟨[2, 7], [20, 70]⟩ : Collection Nat).create 5 50).2.find 5 = some 50 :=
  ⟨by decide, by decide,
    (c7_create_get_find_roundtrip Nat ⟨[2, 7], [20, 70]⟩ 5 50 (by decide) (by decide) rfl).2.1,
    (c7_create_get_find_roundtrip Nat ⟨[2, 7], [20, 70]⟩ 5 50 (by decide) (by decide) rfl).2.2⟩

/-- C8: `FreeIndexList::alloc()` fails with the "allocation exhausted"
overflow condition exactly when all 32 slots are allocated and succeeds
otherwise; consequently 32 successive registrations (slot claims) on a
fresh allocator all succeed — filling the mask — and the 33rd fails with
the overflow condition. -/
theorem c8_capacity_boundary :
    (∀ mask : Nat, mask < 2 ^ 32 →
      ((flAlloc mask = Except.error "overflow_error: Exceeds limit of UniqueIndex instances") ↔
        (∀ i, i < 32 → mask.testBit i = true)) ∧
      (¬(∀ i, i < 32 → mask.testBit i = true) →
        ∃ k mask', flAlloc mask = Except.ok (k, mask'))) ∧
    flAllocs 32 = Except.ok flFullMask ∧
    flAllocs 33 = Except.error "overflow_error: Exceeds limit of UniqueIndex instances" := by
  refine ⟨?_, by rfl, by rfl⟩
  intro mask hm
  constructor
  · constructor
    · intro h
      by_cases he : mask = flFullMask
      · exact (eq_fullMask_iff hm).mp he
      · exfalso
        unfold flAlloc at h
        rw [if_neg he] at h
        cases h
    · intro h
      unfold flAlloc
      rw [if_pos ((eq_fullMask_iff hm).mpr h)]
  · intro h
    have hne : mask ≠ flFullMask := fun he => h ((eq_fullMask_iff hm).mp he)
    refine ⟨countrOne mask, mask ||| 2 ^ countrOne mask, ?_⟩
    unfold flAlloc
    rw [if_neg hne]

/-- Witness for C8: a fresh mask is not full and its `alloc` succeeds. -/
theorem c8_witness :
    (0 : Nat) < 2 ^ 32 ∧
    ((flAlloc 0 = Except.error "overflow_error: Exceeds limit of UniqueIndex instances") ↔
      (∀ i, i < 32 → Nat.testBit 0 i = true)) :=
  ⟨by decide, (c8_capacity_boundary.1 0 (by decide)).1⟩

/-- C9: on any 32-bit mask with at least one free slot, `alloc()` returns
the lowest-numbered free slot (every lower slot is allocated) and marks it
allocated; freeing that slot restores the previous mask, so the next
`alloc()` returns the same slot again (lowest-free-first reuse). -/
theorem c9_alloc_lowest_free_reuse :
    ∀ mask : Nat, mask < 2 ^ 32 → ¬(∀ i, i < 32 → mask.testBit i = true) →
      ∃ k mask', flAlloc mask = Except.ok (k, mask') ∧
        k < 32 ∧ mask.testBit k = false ∧ (∀ j, j < k → mask.testBit j = true) ∧
        mask'.testBit k = true ∧
        flFree mask' k = mask ∧
        flAlloc (flFree mask' k) = Except.ok (k, mask') := by
  intro mask hm hnot
  have hne : mask ≠ flFullMask := fun he => hnot ((eq_fullMask_iff hm).mp he)
  obtain ⟨h1, h2, h3, h4, h5⟩ := flAlloc_lowest hm hne
  have hset : (mask ||| 2 ^ countrOne mask).testBit (countrOne mask) = true := by
    rw [Nat.testBit_or, Nat.testBit_two_pow_self]
    simp
  exact ⟨countrOne mask, mask ||| 2 ^ countrOne mask, h1, h4, h2, h3, hset, h5,
    by rw [h5]; exact h1⟩

/-- Witness for C9 on the mask 0b101: slot 1 is the lowest free slot. -/
theorem c9_witness :
    (5 : Nat) < 2 ^ 32 ∧ ¬(∀ i, i < 32 → Nat.testBit 5 i = true) ∧
    ∃ k mask', flAlloc 5 = Except.ok (k, mask') ∧
      k < 32 ∧ Nat.testBit 5 k = false ∧ (∀ j, j < k → Nat.testBit 5 j = true) ∧
      mask'.testBit k = true ∧
      flFree mask' k = 5 ∧
      flAlloc (flFree mask' k) = Except.ok (k, mask') :=
  ⟨by decide, by decide, c9_alloc_lowest_free_reuse 5 (by decide) (by decide)⟩

/-- C10: a default-constructed `Entity` is the null entity: `isNull()` is
true, `id()` is the `EntityId::Invalid` sentinel (`UINT32_MAX`), and
`world()` — hence `has`/`get`/`find`/`add`, which all call `world()`
first — throws `std::runtime_error` instead of dereferencing the null
world pointer. -/
theorem c10_default_entity_is_null :
    ∀ W : Type,
      (Entity.default W).isNull = true ∧
      (Entity.default W).id = uint32Max ∧
      (Entity.default W).world =
        Except.error "runtime_error: Entity::world_ == nullptr" ∧
      (∀ hasW : W → Nat → Bool, (Entity.default W).hasC hasW =
        Except.error "runtime_error: Entity::world_ == nullptr") ∧
      (∀ (α : Type) (getW : W → Nat → Except String α), (Entity.default W).getC getW =
        Except.error "runtime_error: Entity::world_ == nullptr") ∧
      (∀ (α : Type) (findW : W → Nat → Option α), (Entity.default W).findC findW =
        Except.error "runtime_error: Entity::world_ == nullptr") ∧
      (∀ addW : W → Nat → Except String W, (Entity.default W).addC addW =
        Except.error "runtime_error: Entity::world_ == nullptr") := by
  intro W
  refine ⟨?_, rfl, rfl, fun _ => rfl, fun _ _ => rfl, fun _ _ => rfl, fun _ => rfl⟩
  show decide ((Entity.default W).id = uint32Max) = true
  rw [decide_eq_true_eq]
  rfl

end SubzeroECS
